import Mathlib

/-!
# JazzBridge (`getmusic.py`) — verification of the feed-processing pipeline

A shallow embedding of the core of `getmusic.py`: title parsing
(`AlbumFetcher.clean_title`, `JazzProfilesFetcher.clean_title`), the
two-step link resolution (`search_album_link`,
`convert_url_to_album_link`), feed processing (`process_feed`), and the
Markdown/CSV output generators.

Strings are modelled as `List Char` internally (with `String` wrappers),
and the Python string operations used by the code (`str.strip`,
`str.split`, `str.replace`, `re.sub` with the concrete anchored suffix
patterns, the `re.search` call for the "by" pattern) are embedded as
executable functions.  Network calls (the iTunes search and the
song.link conversion API) are modelled as function parameters (test
doubles), matching the code's use of them as opaque HTTP collaborators.
The embedding treats titles as newline-free text (regex `.` versus `\n`
subtleties are not modelled; no claim involves embedded newlines).
-/

/-- ASCII lower-casing, the case folding used to model Python's
case-insensitive regex matching on the ASCII-only patterns of the code. -/
def asciiLower (c : Char) : Char :=
  if 'A' ≤ c ∧ c ≤ 'Z' then Char.ofNat (c.toNat + 32) else c

/-- Python `\s` / `str.strip` whitespace (ASCII part). -/
def isPySpace (c : Char) : Bool :=
  c = ' ' ∨ c = '\t' ∨ c = '\n' ∨ c = '\r' ∨ c = '\x0b' ∨ c = '\x0c'

/-- Strip leading whitespace (Python `lstrip`). -/
def trimLeft (l : List Char) : List Char := l.dropWhile isPySpace

/-- Strip trailing whitespace (Python `rstrip`). -/
def trimRight (l : List Char) : List Char := (l.reverse.dropWhile isPySpace).reverse

/-- Python `str.strip()`. -/
def pyTrim (l : List Char) : List Char := trimRight (trimLeft l)

/-- Does `pat` occur as a contiguous subsequence of `s`?
Models Python's `in` operator on strings. -/
def hasSub (pat : List Char) : List Char → Bool
  | [] => pat.isEmpty
  | c :: rest => pat.isPrefixOf (c :: rest) || hasSub pat rest

example : pyTrim "  a b ".data = "a b".data := by decide
example : hasSub " - ".data "A - B".data = true := by decide
example : hasSub " - ".data "A-B".data = false := by decide

/-- Worker for `pyReplace`, structurally recursive on a fuel counter so
that the function evaluates inside the kernel; the fuel is kept at least
the length of the remaining input. -/
def pyReplaceGo (old new : List Char) : Nat → List Char → List Char
  | _, [] => []
  | 0, s => s
  | fuel + 1, c :: rest =>
    if old.isPrefixOf (c :: rest) ∧ 0 < old.length then
      new ++ pyReplaceGo old new fuel ((c :: rest).drop old.length)
    else
      c :: pyReplaceGo old new fuel rest

/-- Python `str.replace(old, new)`: replace all occurrences, scanning left
to right without rescanning replaced text.  (A guard keeps the function
the identity for an empty `old`; the code only uses non-empty patterns.) -/
def pyReplace (old new : List Char) (s : List Char) : List Char :=
  pyReplaceGo old new s.length s

theorem pyReplaceGo_fuel (old new : List Char) :
    ∀ f₁ f₂ s, s.length ≤ f₁ → s.length ≤ f₂ →
      pyReplaceGo old new f₁ s = pyReplaceGo old new f₂ s := by
  intro f₁
  induction f₁ with
  | zero =>
    intro f₂ s h₁ _
    have : s = [] := List.eq_nil_of_length_eq_zero (Nat.le_zero.mp h₁)
    subst this
    cases f₂ <;> rfl
  | succ g ih =>
    intro f₂ s h₁ h₂
    cases s with
    | nil => cases f₂ <;> rfl
    | cons c rest =>
      cases f₂ with
      | zero => simp at h₂
      | succ h =>
        simp only [pyReplaceGo]
        split <;> rename_i hc
        · have hlen : ((c :: rest).drop old.length).length ≤ rest.length := by
            simp only [List.length_drop, List.length_cons]
            omega
          rw [ih h _ (Nat.le_trans hlen (Nat.le_of_succ_le_succ h₁))
            (Nat.le_trans hlen (Nat.le_of_succ_le_succ h₂))]
        · rw [ih h rest (Nat.le_of_succ_le_succ h₁) (Nat.le_of_succ_le_succ h₂)]

/-- The characteristic `nil` equation of `pyReplace`. -/
theorem pyReplace_nil (old new : List Char) : pyReplace old new [] = [] := rfl

/-- The characteristic `cons` equation of `pyReplace`: the natural
left-to-right recursion the fuel implementation computes. -/
theorem pyReplace_cons (old new : List Char) (c : Char) (rest : List Char) :
    pyReplace old new (c :: rest) =
      if old.isPrefixOf (c :: rest) ∧ 0 < old.length then
        new ++ pyReplace old new ((c :: rest).drop old.length)
      else
        c :: pyReplace old new rest := by
  show pyReplaceGo old new (rest.length + 1) (c :: rest) = _
  simp only [pyReplaceGo]
  split <;> rename_i hc
  · rw [pyReplace, pyReplaceGo_fuel old new rest.length ((c :: rest).drop old.length).length]
    · simp only [List.length_drop, List.length_cons]; omega
    · exact Nat.le_refl _
  · rfl

example : pyReplace "/us/i/".data "/i/".data "https://album.link/us/i/id123".data
    = "https://album.link/i/id123".data := by decide

/-- Python `s.split(sep, 1)` restricted to the case where `sep` occurs in
`s`: the part before the first occurrence and the part after it. -/
def splitFirstSeq (sep : List Char) : List Char → List Char × List Char
  | [] => ([], [])
  | c :: rest =>
    if sep.isPrefixOf (c :: rest) then ([], (c :: rest).drop sep.length)
    else
      let p := splitFirstSeq sep rest
      (c :: p.1, p.2)

example : splitFirstSeq " - ".data "a - b - c".data = ("a".data, "b - c".data) := by decide

/-- Fuel worker for `pyWords` (structural recursion, kernel-computable). -/
def pyWordsGo : Nat → List Char → List (List Char)
  | _, [] => []
  | 0, _ => []
  | fuel + 1, c :: rest =>
    if isPySpace c then pyWordsGo fuel rest
    else (c :: rest).takeWhile (fun d => ¬ isPySpace d) ::
      pyWordsGo fuel ((c :: rest).dropWhile (fun d => ¬ isPySpace d)).tail

/-- Python `str.split()` (no separator): whitespace-delimited tokens,
empty tokens discarded. -/
def pyWords (s : List Char) : List (List Char) := pyWordsGo s.length s

example : pyWords "  2 Nov  2023 x".data = ["2".data, "Nov".data, "2023".data, "x".data] := by
  decide

/-! ## Title cleaning (`REMOVE_PATTERNS` + `re.sub`)

Each entry of `REMOVE_PATTERNS` is an anchored suffix pattern of the
shape `\s* lit₁ \s* lit₂ … \s*$` (case-insensitive).  Such a pattern is
represented by its list of literal chunks (given lower-case); matching
is deterministic from the right end of the string, and `re.sub` with a
match removes the matched suffix (the leftmost match start is the
beginning of the whitespace run preceding the first chunk). -/

/-- Case-insensitive (ASCII) suffix test; `w` is given lower-case. -/
def endsWithCI (u w : List Char) : Bool :=
  if w.length ≤ u.length then (u.drop (u.length - w.length)).map asciiLower = w
  else false

/-- Match the chunks of an anchored suffix pattern right-to-left
(`revChunks` is the reversed chunk list); returns the string with the
matched suffix removed, or `none` if the pattern does not match. -/
def stripPatGo : List (List Char) → List Char → Option (List Char)
  | [], t => some (trimRight t)
  | c :: rest, t =>
    let u := trimRight t
    if endsWithCI u c then stripPatGo rest (u.take (u.length - c.length)) else none

/-- `re.sub(pattern, ”, s)` for one anchored suffix pattern. -/
def stripPatSuffix (chunks : List (List Char)) (s : List Char) : List Char :=
  match stripPatGo chunks.reverse s with
  | some r => r
  | none => s

/-- Apply the ordered pattern list, each substitution operating on the
result of the previous one (the `for pattern in self.REMOVE_PATTERNS` loop). -/
def stripPatterns (pats : List (List (List Char))) (s : List Char) : List Char :=
  pats.foldl (fun acc p => stripPatSuffix p acc) s

example : stripPatSuffix ["review".data] "X Album Review  ".data = "X Album".data := by decide
example : stripPatSuffix ["-".data, "album".data] "X - Album".data = "X".data := by decide
example : stripPatSuffix ["review".data] "X reviews".data = "X reviews".data := by decide

/-! ## Title parsing

`AlbumFetcher.clean_title` (Strategy A, colon-only) and
`JazzProfilesFetcher.clean_title` (Strategy B, colon / " - " / "by"),
translated from `getmusic.py` lines 63–95 and 283–335. -/

/-- `AlbumFetcher.REMOVE_PATTERNS` (each an anchored, case-insensitive
suffix pattern, given by its literal chunks in lower case). -/
def remPatternsA : List (List (List Char)) :=
  [["album review".data], ["concert review".data], ["premiere".data], ["review".data]]

/-- `JazzProfilesFetcher.REMOVE_PATTERNS`.  The third pattern
`\s*-\s*album\s*$` has two chunks separated by optional whitespace. -/
def remPatternsB : List (List (List Char)) :=
  [["album review".data], ["review".data], ["-".data, "album".data], ["[album]".data]]

/-- The colon branch shared by both parsers: `cleaned.split(':', 1)`,
trim both halves, require both non-empty (lines 81–95 and 308–314). -/
def tryColonSplit (cleaned : List Char) : Option (String × String) :=
  if ':' ∈ cleaned then
    if pyTrim (cleaned.takeWhile (fun c => c ≠ ':')) ≠ [] ∧
        pyTrim ((cleaned.dropWhile (fun c => c ≠ ':')).tail) ≠ [] then
      some (⟨pyTrim (cleaned.takeWhile (fun c => c ≠ ':'))⟩,
            ⟨pyTrim ((cleaned.dropWhile (fun c => c ≠ ':')).tail)⟩)
    else none
  else none

/-- The `' - '` branch of Strategy B: `cleaned.split(' - ', 1)`, trim,
require both halves non-empty (lines 317–323). -/
def tryHyphenSplit (cleaned : List Char) : Option (String × String) :=
  if hasSub " - ".data cleaned then
    if pyTrim (splitFirstSeq " - ".data cleaned).1 ≠ [] ∧
        pyTrim (splitFirstSeq " - ".data cleaned).2 ≠ [] then
      some (⟨pyTrim (splitFirstSeq " - ".data cleaned).1⟩,
            ⟨pyTrim (splitFirstSeq " - ".data cleaned).2⟩)
    else none
  else none

/-- Try to match `\s+by\s+` (case-insensitive) starting right after
position `l` of `s`, mirroring the backtracking of
`re.search(r'^(.+?)\s+by\s+(.+?)$', cleaned, re.IGNORECASE)` at a fixed
end position of group 1: the whitespace run before `by` is forced
maximal (the next character must be `b`), and after `by` the greedy
`\s+` yields one trailing character back to group 2 when nothing else
remains.  Returns `(group 1, group 2)`. -/
def byMatchAt (s : List Char) (l : Nat) : Option (List Char × List Char) :=
  if l = 0 then none
  else
    let rest := s.drop l
    let k := (rest.takeWhile isPySpace).length
    if k = 0 then none
    else
      match rest.drop k with
      | b :: y :: rest2 =>
        if asciiLower b = 'b' ∧ asciiLower y = 'y' then
          let m := (rest2.takeWhile isPySpace).length
          if m = 0 then none
          else if m < rest2.length then some (s.take l, rest2.drop m)
          else if 2 ≤ m then some (s.take l, rest2.drop (m - 1))
          else none
        else none
      | _ => none

/-- The regex search: the first (smallest) end position of the
non-greedy group 1 that lets the rest of the pattern match. -/
def byMatch (s : List Char) : Option (List Char × List Char) :=
  (List.range (s.length + 1)).findSome? (byMatchAt s)

/-- The `"Album by Artist"` branch of Strategy B (lines 326–332): guard
`' by ' in cleaned.lower()`, then the regex; group 1 is the album and
group 2 the artist, both trimmed and required non-empty. -/
def tryBySplit (cleaned : List Char) : Option (String × String) :=
  if hasSub " by ".data (cleaned.map asciiLower) then
    match byMatch cleaned with
    | some p =>
      if pyTrim p.2 ≠ [] ∧ pyTrim p.1 ≠ [] then
        some (⟨pyTrim p.2⟩, ⟨pyTrim p.1⟩)
      else none
    | none => none
  else none

namespace AlbumFetcher

/-- The cleaned title Strategy A works on: the `REMOVE_PATTERNS` loop
followed by `strip()` (lines 74–78). -/
def cleanedTitleA (title : String) : List Char :=
  pyTrim (stripPatterns remPatternsA title.data)

/-- `AlbumFetcher.clean_title` (lines 63–95): strip suffix patterns,
trim, then the first-colon split; `none` models Python's `None`. -/
def clean_title (title : String) : Option (String × String) :=
  tryColonSplit (cleanedTitleA title)

end AlbumFetcher

namespace JazzProfilesFetcher

/-- The cleaned title Strategy B works on (lines 300–304). -/
def cleanedTitleB (title : String) : List Char :=
  pyTrim (stripPatterns remPatternsB title.data)

/-- `JazzProfilesFetcher.clean_title` (lines 283–335): the colon split,
then the `' - '` split, then the `by` pattern, first success wins; each
failed branch falls through to the next. -/
def clean_title (title : String) : Option (String × String) :=
  (tryColonSplit (cleanedTitleB title)).orElse fun _ =>
    (tryHyphenSplit (cleanedTitleB title)).orElse fun _ =>
      tryBySplit (cleanedTitleB title)

end JazzProfilesFetcher

-- Sanity checks against the sample titles in `test_sample.py` and the
-- worked examples of the claims.
example : AlbumFetcher.clean_title "Martin Nodeland: Tributaries album review"
    = some ("Martin Nodeland", "Tributaries") := by decide
example : AlbumFetcher.clean_title "Artist: Album: Subtitle"
    = some ("Artist", "Album: Subtitle") := by decide
example : AlbumFetcher.clean_title "X Album Review" = none := by decide
example : JazzProfilesFetcher.clean_title "A: B - C" = some ("A", "B - C") := by decide
example : JazzProfilesFetcher.clean_title "Midnight Blue by Kenny Burrell"
    = some ("Kenny Burrell", "Midnight Blue") := by decide
example : JazzProfilesFetcher.clean_title ": B - C" = some (": B", "C") := by decide
example : JazzProfilesFetcher.clean_title "descriptive title" = none := by decide

/-! ## Date normalization (`process_feed`, lines 238–246)

`datetime.strptime(pub_date, '%a, %d %b %Y %H:%M:%S %z')` followed by
`strftime('%Y-%m-%d')`, modelled after CPython's `_strptime` regex table
(the `datetime` module is an external collaborator of the repository):
two-digit numeric fields may also be single digits, names match
case-insensitively, whitespace in the format matches a whitespace run,
and the whole string must be consumed.  The bare `except:` branch runs
`pub_date.split(',')[1].strip().split()[0:3]` joined by spaces — an
expression that raises an uncaught `IndexError` when the string contains
no comma; the `Except Unit` error value models that exception escaping
`process_feed`. -/

/-- Digit value of a character. -/
def digitVal (c : Char) : Nat := c.toNat - '0'.toNat

/-- Consume a run of at least one whitespace character (the `\s+` that
format whitespace compiles to); the following format atoms all begin
with a non-whitespace character, so the maximal run is forced. -/
def eatWs1 : List Char → Option (List Char)
  | c :: rest => if isPySpace c then some (rest.dropWhile isPySpace) else none
  | [] => none

/-- Consume a 1–2 digit numeric field: take two digits when the
two-digit value passes `ok2`, else one digit (which always passes, as in
the `_strptime` alternations, whose single-digit arm is a bare `\d` —
except for the day field, where `ok1` also constrains it). -/
def eatNum2 (ok2 : Nat → Bool) (ok1 : Nat → Bool) : List Char → Option (Nat × List Char)
  | c1 :: c2 :: rest =>
    if c1.isDigit ∧ c2.isDigit ∧ ok2 (digitVal c1 * 10 + digitVal c2) then
      some (digitVal c1 * 10 + digitVal c2, rest)
    else if c1.isDigit ∧ ok1 (digitVal c1) then some (digitVal c1, c2 :: rest)
    else none
  | [c1] => if c1.isDigit ∧ ok1 (digitVal c1) then some (digitVal c1, []) else none
  | [] => none

/-- The lower-cased three-letter English weekday abbreviations of `%a`. -/
def dayAbbrevs : List (List Char) :=
  ["mon".data, "tue".data, "wed".data, "thu".data, "fri".data, "sat".data, "sun".data]

/-- The lower-cased three-letter English month abbreviations of `%b`. -/
def monthAbbrevs : List (List Char) :=
  ["jan".data, "feb".data, "mar".data, "apr".data, "may".data, "jun".data,
   "jul".data, "aug".data, "sep".data, "oct".data, "nov".data, "dec".data]

/-- Consume a case-insensitive three-letter name from `names`; returns
its 1-based index. -/
def eatName3 (names : List (List Char)) : List Char → Option (Nat × List Char)
  | c1 :: c2 :: c3 :: rest =>
    match names.indexOf? ([c1, c2, c3].map asciiLower) with
    | some i => some (i + 1, rest)
    | none => none
  | _ => none

/-- Consume exactly four digits (`%Y`). -/
def eatYear4 : List Char → Option (Nat × List Char)
  | c1 :: c2 :: c3 :: c4 :: rest =>
    if c1.isDigit ∧ c2.isDigit ∧ c3.isDigit ∧ c4.isDigit then
      some (digitVal c1 * 1000 + digitVal c2 * 100 + digitVal c3 * 10 + digitVal c4, rest)
    else none
  | _ => none

/-- Consume the `%z` offset `[+-]\d\d:?[0-5]\d(:?[0-5]\d(\.\d{1,6})?)?`
or a literal `Z`; returns the absolute offset in seconds (the fractional
part only matters for strict 24-hour validity, which it cannot affect
when the seconds are below 86400, so it is consumed and discarded). -/
def eatTzOffset : List Char → Option (Nat × List Char)
  | 'Z' :: rest => some (0, rest)
  | sign :: c1 :: c2 :: rest =>
    if (sign = '+' ∨ sign = '-') ∧ c1.isDigit ∧ c2.isDigit then
      let hh := digitVal c1 * 10 + digitVal c2
      let rest1 := if rest.headD 'x' = ':' then rest.tail else rest
      match rest1 with
      | m1 :: m2 :: rest2 =>
        if m1.isDigit ∧ digitVal m1 ≤ 5 ∧ m2.isDigit then
          let mm := digitVal m1 * 10 + digitVal m2
          let rest3 := if rest2.headD 'x' = ':' then rest2.tail else rest2
          match rest3 with
          | s1 :: s2 :: rest4 =>
            if s1.isDigit ∧ digitVal s1 ≤ 5 ∧ s2.isDigit then
              let ss := digitVal s1 * 10 + digitVal s2
              let rest5 :=
                if rest4.headD 'x' = '.' ∧ (rest4.tail.takeWhile Char.isDigit).length ≥ 1 ∧
                    (rest4.tail.takeWhile Char.isDigit).length ≤ 6 then
                  rest4.tail.dropWhile Char.isDigit
                else rest4
              if rest4.headD 'x' = '.' ∧ rest5 = rest4 then
                -- a dot not followed by 1–6 digits: the optional seconds
                -- group still matched without the fraction
                some (hh * 3600 + mm * 60 + ss, rest4)
              else some (hh * 3600 + mm * 60 + ss, rest5)
            else some (hh * 3600 + mm * 60, rest3)
          | _ => some (hh * 3600 + mm * 60, rest3)
        else none
      | _ => none
    else none
  | _ => none

/-- Days in a month, with the Gregorian leap rule (as `datetime` uses). -/
def daysInMonth (year month : Nat) : Nat :=
  if month = 2 then
    if year % 4 = 0 ∧ (year % 100 ≠ 0 ∨ year % 400 = 0) then 29 else 28
  else if month = 4 ∨ month = 6 ∨ month = 9 ∨ month = 11 then 30
  else 31

/-- `datetime.strptime(s, '%a, %d %b %Y %H:%M:%S %z')` together with the
`datetime` constructor's range validation; produces `(year, month, day)`
on success. -/
def strptimeRFC822 (s : List Char) : Option (Nat × Nat × Nat) := do
  let (_, r1) ← eatName3 dayAbbrevs s
  let r2 ← match r1 with
    | ',' :: rest => some rest
    | _ => none
  let r3 ← eatWs1 r2
  let (day, r4) ← eatNum2 (fun v => 1 ≤ v ∧ v ≤ 31) (fun v => 1 ≤ v) r3
  let r5 ← eatWs1 r4
  let (month, r6) ← eatName3 monthAbbrevs r5
  let r7 ← eatWs1 r6
  let (year, r8) ← eatYear4 r7
  let r9 ← eatWs1 r8
  let (hour, r10) ← eatNum2 (fun v => v ≤ 23) (fun _ => true) r9
  let r11 ← match r10 with
    | ':' :: rest => some rest
    | _ => none
  let (minute, r12) ← eatNum2 (fun v => v ≤ 59) (fun _ => true) r11
  let r13 ← match r12 with
    | ':' :: rest => some rest
    | _ => none
  let (second, r14) ← eatNum2 (fun v => v ≤ 61) (fun _ => true) r13
  let r15 ← eatWs1 r14
  let (offset, r16) ← eatTzOffset r15
  -- full match required (`_strptime` checks the match consumed the string)
  if r16 ≠ [] then none
  else if 1 ≤ year ∧ 1 ≤ day ∧ day ≤ daysInMonth year month ∧ hour ≤ 23 ∧
      minute ≤ 59 ∧ second ≤ 59 ∧ offset < 86400 then
    some (year, month, day)
  else none

/-- Zero-pad a numeral to two digits. -/
def pad2 (n : Nat) : String := if n < 10 then "0" ++ toString n else toString n

/-- Zero-pad a numeral to four digits (`strftime('%Y')`). -/
def pad4 (n : Nat) : String :=
  if n < 10 then "000" ++ toString n
  else if n < 100 then "00" ++ toString n
  else if n < 1000 then "0" ++ toString n
  else toString n

/-- The date-normalization block of `process_feed` (lines 238–246).
`Except.error ()` models an exception escaping the block: the bare
`except:` handler itself evaluates `pub_date.split(',')[1]`, which
raises an uncaught `IndexError` when `pub_date` has no comma. -/
def parsePubDate (pub : String) : Except Unit String :=
  if pub = "" then .ok ""      -- `if pub_date:` is false; date_str stays ''
  else
    match strptimeRFC822 pub.data with
    | some (y, m, d) => .ok (pad4 y ++ "-" ++ pad2 m ++ "-" ++ pad2 d)
    | none =>
      match pub.data.splitOn ',' with
      | [] => .error ()        -- unreachable: splitOn never returns []
      | [_] => .error ()       -- no comma: `[1]` raises IndexError
      | _ :: p1 :: _ =>
        -- `pub_date.split(',')[1].strip().split()[0:3]` joined by spaces
        -- (the slice is always a list, so the `join` branch is taken)
        .ok ⟨List.intercalate " ".data ((pyWords (pyTrim p1)).take 3)⟩

deriving instance DecidableEq for Except

example : parsePubDate "Mon, 06 Nov 2023 14:30:00 +0000" = .ok "2023-11-06" := by decide
example : parsePubDate "Mon, 06 Nov 2023 14:30:00 Z" = .ok "2023-11-06" := by decide
example : parsePubDate "" = .ok "" := by decide
example : parsePubDate "2023-11-06T14:30:00" = .error () := by decide
example : parsePubDate "Wednesday, 06 Nov 2023" = .ok "06 Nov 2023" := by decide
example : parsePubDate "Mon, 30 Feb 2023 14:30:00 +0000" = .ok "30 Feb 2023" := by decide

/-! ## Link resolution (`search_album_link`, `convert_url_to_album_link`)

The two HTTP collaborators are passed in as functions: `search` models
`search_apple_music` (which returns `None` on any transport/parse error,
missing results, or a missing `collectionViewUrl`, and otherwise a
non-empty URL), and a conversion oracle models the song.link API
response.  `convert_url_to_album_link` takes the API outcome for its
URL: `.error ()` is a transport/decode error (both are caught and
produce `None`), `.ok none` a response without `pageUrl`, and
`.ok (some u)` a response whose `pageUrl` is `u`. -/

/-- The region-code normalization applied to a successful conversion
response (lines 180–182): three successive `str.replace` calls. -/
def normalizeRegion (pageUrl : String) : String :=
  ⟨pyReplace "/ca/i/".data "/i/".data
    (pyReplace "/uk/i/".data "/i/".data
      (pyReplace "/us/i/".data "/i/".data pageUrl.data))⟩

namespace AlbumFetcher

/-- `AlbumFetcher.convert_url_to_album_link` (lines 152–195), as a
function of the song.link API outcome for the requested URL. -/
def convert_url_to_album_link (resp : Except Unit (Option String)) : Option String :=
  match resp with
  | .error _ => none               -- RequestException / ValueError: caught, None
  | .ok none => none               -- no pageUrl in API response
  | .ok (some pageUrl) => some (normalizeRegion pageUrl)

/-- `AlbumFetcher.search_album_link` (lines 197–222) instrumented with
the number of calls made to `convert_url_to_album_link`: the conversion
step runs exactly when the Apple Music search produced a URL. -/
def search_album_link_instr (search : String → String → Option String)
    (convert : String → Option String) (artist album : String) : Option String × Nat :=
  match search artist album with
  | some apple_url =>
    match convert apple_url with
    | some album_link => (some album_link, 1)
    | none => (none, 1)
  | none => (none, 0)

/-- `AlbumFetcher.search_album_link` proper (its return value). -/
def search_album_link (search : String → String → Option String)
    (convert : String → Option String) (artist album : String) : Option String :=
  (search_album_link_instr search convert artist album).1

end AlbumFetcher

/-! ## Feed processing (`process_feed`, lines 224–267) -/

/-- A raw feed entry as `process_feed` reads it: `entry.get('title', '')`
and `entry.get('published', '')` (missing fields are the empty string). -/
structure FeedEntry where
  title : String
  published : String
deriving DecidableEq, Repr

/-- One output row: `(artist, album, album_link, apple_music_link, date)`. -/
structure ResultRecord where
  artist : String
  album : String
  album_link : String
  apple_music_link : String
  date : String
deriving DecidableEq, Repr

namespace AlbumFetcher

/-- The loop body of `process_feed` for one entry, given the two
resolution oracles: parse the date (which can raise), parse the title
(skip on failure), search Apple Music, convert when a URL was found, and
build the row with `album_link or ''` / `apple_url or ''`. -/
def process_feed (search : String → String → Option String)
    (convert : String → Option String) :
    List FeedEntry → Except Unit (List ResultRecord)
  | [] => .ok []
  | e :: rest =>
    match parsePubDate e.published with
    | .error u => .error u           -- uncaught IndexError aborts the loop
    | .ok date_str =>
      match clean_title e.title with
      | none => process_feed search convert rest     -- `continue`
      | some (artist, album) =>
        match process_feed search convert rest with
        | .error u => .error u
        | .ok rs =>
          let apple_url := search artist album
          let album_link := apple_url.bind convert
          .ok ({ artist := artist, album := album,
                 album_link := album_link.getD "",
                 apple_music_link := apple_url.getD "",
                 date := date_str } :: rs)

end AlbumFetcher

/-- The record an entry contributes (if any), used to state what
`process_feed` produces: `none` exactly when title parsing fails. -/
def entryRecord (search : String → String → Option String)
    (convert : String → Option String) (e : FeedEntry) : Option ResultRecord :=
  (AlbumFetcher.clean_title e.title).map fun p =>
    { artist := p.1, album := p.2,
      album_link := ((search p.1 p.2).bind convert).getD "",
      apple_music_link := (search p.1 p.2).getD "",
      date := (parsePubDate e.published).toOption.getD "" }

example :
    AlbumFetcher.process_feed (fun _ _ => none) (fun _ => none)
      [⟨"Artist A: Album One review", ""⟩, ⟨"no separator", ""⟩] =
      .ok [⟨"Artist A", "Album One", "", "", ""⟩] := by decide
example :
    AlbumFetcher.process_feed (fun _ _ => none) (fun _ => none)
      [⟨"T: U", "not a date"⟩] = .error () := by decide

/-! ## Output generation (`OutputGenerator`, lines 341–365)

`generate_markdown` and `generate_csv` are modelled as the string each
writes to its output file.  The CSV serialization follows `csv.writer`
with the default dialect (delimiter `,`, quote char `"`, terminator
`\r\n`, minimal quoting, a lone empty field quoted), and a standard
CSV reader is modelled alongside to state the round-trip property. -/

namespace OutputGenerator

/-- The Markdown line written for one record (line 351–354): both link
labels are always emitted with the raw field as the target; only the
date is conditional. -/
def recordLine (r : ResultRecord) : String :=
  "- **" ++ r.artist ++ " — " ++ r.album ++ "** [[All](" ++ r.album_link ++
    ")] [[Apple](" ++ r.apple_music_link ++ ")]" ++
    (if r.date ≠ "" then " _" ++ r.date ++ "_" else "") ++ "\n"

/-- The record lines in order (the `for` loop of `generate_markdown`). -/
def renderLines : List ResultRecord → String
  | [] => ""
  | r :: rest => recordLine r ++ renderLines rest

/-- `OutputGenerator.generate_markdown` (lines 341–355), as the full
text written to the output file. -/
def generate_markdown (results : List ResultRecord) : String :=
  "## 🎶 New Jazz Albums\n\n" ++ "_Links: [All Platforms] | [Apple Music]_\n\n" ++
    (if results.isEmpty then "No albums found.\n" else renderLines results)

end OutputGenerator

/-- Does a CSV field need quoting under `QUOTE_MINIMAL`?  Exactly when it
contains the delimiter, the quote char, or a line-terminator character. -/
def csvNeedsQuote (f : List Char) : Bool :=
  f.any fun c => c = ',' ∨ c = '"' ∨ c = '\r' ∨ c = '\n'

/-- Double every quote character (the escaping inside a quoted field). -/
def csvEscape : List Char → List Char
  | [] => []
  | c :: rest => if c = '"' then '"' :: '"' :: csvEscape rest else c :: csvEscape rest

/-- Serialize one field: quoted with escaped quotes when needed. -/
def csvField (f : List Char) : List Char :=
  if csvNeedsQuote f then '"' :: (csvEscape f ++ ['"']) else f

/-- Join serialized fields with the delimiter. -/
def csvJoin : List (List Char) → List Char
  | [] => []
  | f :: rest =>
    match rest with
    | [] => f
    | _ :: _ => f ++ ',' :: csvJoin rest

/-- Serialize one row (`csv.writer.writerow`): fields joined by `,` and
terminated by `\r\n`; a row consisting of a single empty field is
written as `""` so it is distinguishable from a blank line. -/
def csvRow (fs : List (List Char)) : List Char :=
  if fs = [[]] then '"' :: '"' :: ['\r', '\n']
  else csvJoin (fs.map csvField) ++ ['\r', '\n']

/-- Serialize a sequence of rows. -/
def csvRows : List (List (List Char)) → List Char
  | [] => []
  | r :: rest => csvRow r ++ csvRows rest

/-- The five cells of one result row, in the order `writerow` sees them. -/
def recFields (r : ResultRecord) : List (List Char) :=
  [r.artist.data, r.album.data, r.album_link.data, r.apple_music_link.data, r.date.data]

/-- The header row of `generate_csv` (line 362). -/
def csvHeader : List (List Char) :=
  ["artist".data, "album".data, "album_link".data, "apple_music_link".data, "date".data]

namespace OutputGenerator

/-- `OutputGenerator.generate_csv` (lines 357–365), as the full text
written to the output file: header row then one row per record. -/
def generate_csv (results : List ResultRecord) : String :=
  ⟨csvRows (csvHeader :: results.map recFields)⟩

end OutputGenerator

/-! A standard CSV reader (the external `csv.reader` collaborator used
to re-read the produced file), modelled with fuel so it stays
structurally recursive; `csvParse` rejects malformed input with `none`. -/

/-- Parse the remainder of a quoted field (opening quote consumed):
`""` is a literal quote, a lone `"` closes the field. -/
def csvQuoted : List Char → Option (List Char × List Char)
  | [] => none                                 -- unterminated quote
  | c :: rest =>
    if c = '"' then
      match rest with
      | [] => some ([], [])
      | c2 :: rest2 =>
        if c2 = '"' then (csvQuoted rest2).map fun p => ('"' :: p.1, p.2)
        else some ([], rest)
    else (csvQuoted rest).map fun p => (c :: p.1, p.2)

/-- The characters that end an unquoted field. -/
def csvPlain (c : Char) : Bool := ¬ (c = ',' ∨ c = '\r' ∨ c = '\n')

/-- Parse one field: quoted if it starts with `"`, else up to the next
delimiter or line end. -/
def csvParseField (s : List Char) : Option (List Char × List Char) :=
  match s with
  | [] => some ([], [])
  | c :: rest =>
    if c = '"' then csvQuoted rest
    else some ((c :: rest).takeWhile csvPlain, (c :: rest).dropWhile csvPlain)

/-- Parse one row (fuel-driven): a field, then either `,` and more
fields, the `\r\n` terminator, or end of input. -/
def csvParseRowGo : Nat → List Char → Option (List (List Char) × List Char)
  | 0, _ => none
  | fuel + 1, s =>
    match csvParseField s with
    | none => none
    | some (f, r) =>
      match r with
      | [] => some ([f], [])
      | c :: r2 =>
        if c = ',' then (csvParseRowGo fuel r2).map fun p => (f :: p.1, p.2)
        else if c = '\r' then
          match r2 with
          | c2 :: r3 => if c2 = '\n' then some ([f], r3) else none
          | [] => none
        else none                              -- junk after a closing quote

/-- Parse all rows (fuel-driven). -/
def csvParseRowsGo : Nat → List Char → Option (List (List (List Char)))
  | 0, _ => none
  | _ + 1, [] => some []
  | fuel + 1, c :: s =>
    match csvParseRowGo ((c :: s).length + 1) (c :: s) with
    | none => none
    | some (fs, r) => (csvParseRowsGo fuel r).map fun rows => fs :: rows

/-- Parse a CSV document into its rows of fields. -/
def csvParse (s : List Char) : Option (List (List (List Char))) :=
  csvParseRowsGo (s.length + 1) s

example : csvParse (OutputGenerator.generate_csv
    [⟨"A, x", "B\"q\"", "", "u", "2023-11-06"⟩]).data =
    some [csvHeader, ["A, x".data, "B\"q\"".data, [], "u".data, "2023-11-06".data]] := by
  decide

/-! ## Substring and prefix lemmas

Facts about `hasSub`, `List.isPrefixOf` and `pyReplace` needed to reason
about the region-code normalization and the Markdown renderer. -/

theorem isPrefixOf_self_append (p t : List Char) : p.isPrefixOf (p ++ t) = true := by
  induction p with
  | nil => simp [List.isPrefixOf]
  | cons a p ih => simp [List.isPrefixOf, ih]

theorem isPrefixOf_eq_exists {p l : List Char} :
    p.isPrefixOf l = true ↔ ∃ t, l = p ++ t := by
  rw [List.isPrefixOf_iff_prefix]
  exact ⟨fun ⟨t, ht⟩ => ⟨t, ht.symm⟩, fun ⟨t, ht⟩ => ⟨t, ht.symm⟩⟩

theorem hasSub_exists {p l : List Char} (h : hasSub p l = true) :
    ∃ u v, l = u ++ (p ++ v) := by
  induction l with
  | nil =>
    simp only [hasSub, List.isEmpty_iff] at h
    exact ⟨[], [], by simp [h]⟩
  | cons c rest ih =>
    simp only [hasSub, Bool.or_eq_true] at h
    rcases h with h | h
    · obtain ⟨t, ht⟩ := isPrefixOf_eq_exists.mp h
      exact ⟨[], t, by simp [ht]⟩
    · obtain ⟨u, v, huv⟩ := ih h
      exact ⟨c :: u, v, by simp [huv]⟩

theorem hasSub_self_append (p v : List Char) : hasSub p (p ++ v) = true := by
  cases p with
  | nil => cases v <;> simp [hasSub, List.isPrefixOf]
  | cons a p' => simp [hasSub, isPrefixOf_self_append]

theorem hasSub_append_r (p a b : List Char) (h : hasSub p b = true) :
    hasSub p (a ++ b) = true := by
  induction a with
  | nil => simpa using h
  | cons c a' ih =>
    simp only [List.cons_append, hasSub, Bool.or_eq_true]
    exact Or.inr ih

theorem hasSub_parts (u p v : List Char) : hasSub p (u ++ (p ++ v)) = true :=
  hasSub_append_r p u (p ++ v) (hasSub_self_append p v)

theorem hasSub_append_l (p a b : List Char) (h : hasSub p a = true) :
    hasSub p (a ++ b) = true := by
  obtain ⟨u, v, rfl⟩ := hasSub_exists h
  have harr : (u ++ (p ++ v)) ++ b = u ++ (p ++ (v ++ b)) := by
    simp [List.append_assoc]
  rw [harr]
  exact hasSub_parts u p (v ++ b)

theorem isPrefixOf_mem {p l : List Char} (h : p.isPrefixOf l = true) :
    ∀ c ∈ p, c ∈ l := by
  obtain ⟨t, rfl⟩ := isPrefixOf_eq_exists.mp h
  intro c hc
  exact List.mem_append_left _ hc

theorem hasSub_mem {p l : List Char} (h : hasSub p l = true) : ∀ c ∈ p, c ∈ l := by
  obtain ⟨u, v, rfl⟩ := hasSub_exists h
  intro c hc
  exact List.mem_append_right _ (List.mem_append_left _ hc)

theorem hasSub_false_of_not_mem {p l : List Char} (c : Char) (hc : c ∈ p) (hl : c ∉ l) :
    hasSub p l = false := by
  cases hps : hasSub p l with
  | false => rfl
  | true => exact absurd (hasSub_mem hps c hc) hl

theorem isPrefixOf_append_of_le {p l : List Char} (t : List Char) (h : p.length ≤ l.length) :
    p.isPrefixOf (l ++ t) = p.isPrefixOf l := by
  induction p generalizing l with
  | nil => simp [List.isPrefixOf]
  | cons a p ih =>
    cases l with
    | nil => simp at h
    | cons b l' =>
      simp only [List.cons_append, List.isPrefixOf]
      rw [show l'.append t = l' ++ t from rfl, ih (by simpa using h)]

theorem isPrefixOf_split {p s b : List Char} (h : p.isPrefixOf (s ++ b) = true)
    (hl : s.length ≤ p.length) :
    p.take s.length = s ∧ (p.drop s.length).isPrefixOf b = true := by
  induction s generalizing p with
  | nil => simpa using h
  | cons c s' ih =>
    cases p with
    | nil => simp at hl
    | cons a p' =>
      simp only [List.cons_append, List.isPrefixOf, Bool.and_eq_true, beq_iff_eq] at h
      obtain ⟨rfl, h2⟩ := h
      obtain ⟨h3, h4⟩ := ih h2 (Nat.le_of_succ_le_succ hl)
      refine ⟨?_, by simpa using h4⟩
      simp [h3]

theorem hasSub_append_cases {p a b : List Char} (h : hasSub p (a ++ b) = true) :
    (∃ i, i < a.length ∧ p.isPrefixOf (a.drop i ++ b) = true) ∨ hasSub p b = true := by
  induction a with
  | nil => exact Or.inr (by simpa using h)
  | cons c a' ih =>
    simp only [List.cons_append, hasSub, Bool.or_eq_true] at h
    rcases h with h | h
    · exact Or.inl ⟨0, by simp, by simpa using h⟩
    · rcases ih h with ⟨i, hi, hp⟩ | h
      · exact Or.inl ⟨i + 1, by simpa using Nat.succ_lt_succ hi, by simpa using hp⟩
      · exact Or.inr h

/-- A decidable sufficient condition: no occurrence of `pat` can start
inside `a` when the part after `a` contains no `/` — at every start
position either the visible characters already mismatch, or the part of
`pat` that would straddle past `a` contains a `/`. -/
def slashSafe (pat a : List Char) : Bool :=
  (List.range a.length).all fun i =>
    if pat.length ≤ (a.drop i).length then ! pat.isPrefixOf (a.drop i)
    else ! decide (a.drop i = pat.take (a.drop i).length) ||
      decide ('/' ∈ pat.drop (a.drop i).length)

theorem hasSub_concat_false {pat b : List Char} (a : List Char)
    (hpat : '/' ∈ pat) (hb : '/' ∉ b) (hsafe : slashSafe pat a = true) :
    hasSub pat (a ++ b) = false := by
  cases hres : hasSub pat (a ++ b) with
  | false => rfl
  | true =>
    exfalso
    rcases hasSub_append_cases hres with ⟨i, hi, hp⟩ | h
    · have hs := (List.all_eq_true.mp hsafe) i (List.mem_range.mpr hi)
      by_cases hlen : pat.length ≤ (a.drop i).length
      · rw [if_pos hlen] at hs
        rw [isPrefixOf_append_of_le b hlen] at hp
        simp [hp] at hs
      · rw [if_neg hlen] at hs
        have hle : (a.drop i).length ≤ pat.length :=
          Nat.le_of_lt (Nat.lt_of_not_le hlen)
        obtain ⟨h1, h2⟩ := isPrefixOf_split hp hle
        simp only [Bool.or_eq_true, Bool.not_eq_true', decide_eq_false_iff_not,
          decide_eq_true_eq] at hs
        rcases hs with hs | hs
        · exact hs h1.symm
        · exact hb (isPrefixOf_mem h2 '/' hs)
    · exact hb (hasSub_mem h '/' hpat)

theorem pyReplace_of_hasSub_false (old new s : List Char) (h : hasSub old s = false) :
    pyReplace old new s = s := by
  induction s with
  | nil => rfl
  | cons c rest ih =>
    simp only [hasSub, Bool.or_eq_false_iff] at h
    rw [pyReplace_cons, if_neg, ih h.2]
    rintro ⟨hpre, -⟩
    rw [h.1] at hpre
    exact Bool.false_ne_true hpre

/-- Replacing at an exhibited leftmost occurrence: if no occurrence of
`old` starts inside `pre`, the replacement rewrites the exhibited one
and continues after it. -/
theorem pyReplace_concat (old new pre post : List Char) (h0 : 0 < old.length)
    (h : ∀ i, i < pre.length → old.isPrefixOf ((pre ++ old).drop i) = false) :
    pyReplace old new (pre ++ old ++ post) = pre ++ new ++ pyReplace old new post := by
  induction pre with
  | nil =>
    cases old with
    | nil => simp at h0
    | cons o old' =>
      rw [List.nil_append, List.nil_append, List.cons_append, pyReplace_cons, if_pos]
      · rw [← List.cons_append, List.drop_left]
      · exact ⟨by rw [← List.cons_append]; exact isPrefixOf_self_append _ _, h0⟩
  | cons c pre' ih =>
    have hlen : old.length ≤ (c :: (pre' ++ old)).length := by
      simp only [List.length_cons, List.length_append]
      omega
    have h0' : old.isPrefixOf (c :: (pre' ++ old ++ post)) = false := by
      have hh := h 0 (by simp)
      rw [List.drop_zero, List.cons_append] at hh
      calc old.isPrefixOf (c :: (pre' ++ old ++ post))
          = old.isPrefixOf ((c :: (pre' ++ old)) ++ post) := by
            simp [List.append_assoc]
        _ = old.isPrefixOf (c :: (pre' ++ old)) := isPrefixOf_append_of_le post hlen
        _ = false := hh
    rw [List.cons_append, List.cons_append, pyReplace_cons, if_neg]
    · rw [ih]
      · simp [List.append_assoc]
      · intro i hi
        have hh := h (i + 1) (by simpa using Nat.succ_lt_succ hi)
        rw [List.cons_append] at hh
        simpa using hh
    · rintro ⟨hpre, -⟩
      rw [h0'] at hpre
      exact Bool.false_ne_true hpre

/-- Sequencing the three region replacements on a canonical
`https://album.link/<region>/i/<id>` URL with a slash-free id. -/
theorem normalizeRegion_strips (region : String)
    (hr : region = "us" ∨ region = "uk" ∨ region = "ca") (id : String)
    (hid : '/' ∉ id.data) :
    normalizeRegion ("https://album.link/" ++ region ++ "/i/" ++ id) =
      "https://album.link/i/" ++ id := by
  have husid : hasSub "/us/i/".data id.data = false :=
    hasSub_false_of_not_mem '/' (by decide) hid
  have hukid : hasSub "/uk/i/".data id.data = false :=
    hasSub_false_of_not_mem '/' (by decide) hid
  have hcaid : hasSub "/ca/i/".data id.data = false :=
    hasSub_false_of_not_mem '/' (by decide) hid
  have hdata : ("https://album.link/" ++ region ++ "/i/" ++ id).data =
      "https://album.link".data ++ ("/" ++ region ++ "/i/").data ++ id.data := by
    simp [String.data_append, List.append_assoc]
  have hres : ("https://album.link/i/" ++ id).data =
      "https://album.link/i/".data ++ id.data := by
    simp [String.data_append]
  rcases hr with rfl | rfl | rfl
  · show (⟨_⟩ : String) = _
    rw [String.ext_iff]
    rw [hres]
    show pyReplace "/ca/i/".data "/i/".data
        (pyReplace "/uk/i/".data "/i/".data
          (pyReplace "/us/i/".data "/i/".data
            ("https://album.link/" ++ "us" ++ "/i/" ++ id).data)) = _
    rw [hdata]
    rw [show ("/" ++ ("us" : String) ++ "/i/").data = "/us/i/".data from rfl]
    rw [pyReplace_concat _ _ _ _ (by decide) (by decide)]
    rw [pyReplace_of_hasSub_false _ _ _ husid]
    rw [show "https://album.link".data ++ "/i/".data ++ id.data =
      "https://album.link/i/".data ++ id.data by simp [List.append_assoc]]
    rw [pyReplace_of_hasSub_false _ _ _
      (hasSub_concat_false "https://album.link/i/".data (by decide) hid (by decide))]
    rw [pyReplace_of_hasSub_false _ _ _
      (hasSub_concat_false "https://album.link/i/".data (by decide) hid (by decide))]
  · show (⟨_⟩ : String) = _
    rw [String.ext_iff]
    rw [hres]
    show pyReplace "/ca/i/".data "/i/".data
        (pyReplace "/uk/i/".data "/i/".data
          (pyReplace "/us/i/".data "/i/".data
            ("https://album.link/" ++ "uk" ++ "/i/" ++ id).data)) = _
    rw [hdata]
    rw [show ("/" ++ ("uk" : String) ++ "/i/").data = "/uk/i/".data from rfl]
    rw [pyReplace_of_hasSub_false "/us/i/".data _ _ ?hus]
    case hus =>
      rw [show "https://album.link".data ++ "/uk/i/".data ++ id.data =
        ("https://album.link".data ++ "/uk/i/".data) ++ id.data by simp [List.append_assoc]]
      exact hasSub_concat_false _ (by decide) hid (by decide)
    rw [pyReplace_concat _ _ _ _ (by decide) (by decide)]
    rw [pyReplace_of_hasSub_false _ _ _ hukid]
    rw [show "https://album.link".data ++ "/i/".data ++ id.data =
      "https://album.link/i/".data ++ id.data by simp [List.append_assoc]]
    rw [pyReplace_of_hasSub_false _ _ _
      (hasSub_concat_false "https://album.link/i/".data (by decide) hid (by decide))]
  · show (⟨_⟩ : String) = _
    rw [String.ext_iff]
    rw [hres]
    show pyReplace "/ca/i/".data "/i/".data
        (pyReplace "/uk/i/".data "/i/".data
          (pyReplace "/us/i/".data "/i/".data
            ("https://album.link/" ++ "ca" ++ "/i/" ++ id).data)) = _
    rw [hdata]
    rw [show ("/" ++ ("ca" : String) ++ "/i/").data = "/ca/i/".data from rfl]
    rw [pyReplace_of_hasSub_false "/us/i/".data _ _ ?hus]
    case hus =>
      rw [show "https://album.link".data ++ "/ca/i/".data ++ id.data =
        ("https://album.link".data ++ "/ca/i/".data) ++ id.data by simp [List.append_assoc]]
      exact hasSub_concat_false _ (by decide) hid (by decide)
    rw [pyReplace_of_hasSub_false "/uk/i/".data _ _ ?huk]
    case huk =>
      rw [show "https://album.link".data ++ "/ca/i/".data ++ id.data =
        ("https://album.link".data ++ "/ca/i/".data) ++ id.data by simp [List.append_assoc]]
      exact hasSub_concat_false _ (by decide) hid (by decide)
    rw [pyReplace_concat _ _ _ _ (by decide) (by decide)]
    rw [pyReplace_of_hasSub_false _ _ _ hcaid]
    rw [show "https://album.link".data ++ "/i/".data ++ id.data =
      "https://album.link/i/".data ++ id.data by simp [List.append_assoc]]

/-- C6: link-conversion normalization.  For a successful conversion
response, a returned link whose path carries one of the known region
codes (`us`, `uk`, `ca`) before the `/i/` service segment is stripped of
it (`/us/i/id123` normalizes to `/i/id123`, and likewise for the other
region codes), and a returned link containing none of the recognized
region segments is returned unchanged. -/
theorem claim6_region_normalization :
    (∀ region : String, (region = "us" ∨ region = "uk" ∨ region = "ca") →
      ∀ id : String, '/' ∉ id.data →
        AlbumFetcher.convert_url_to_album_link
            (.ok (some ("https://album.link/" ++ region ++ "/i/" ++ id))) =
          some ("https://album.link/i/" ++ id)) ∧
    (∀ u : String, hasSub "/us/i/".data u.data = false →
      hasSub "/uk/i/".data u.data = false → hasSub "/ca/i/".data u.data = false →
        AlbumFetcher.convert_url_to_album_link (.ok (some u)) = some u) := by
  constructor
  · intro region hr id hid
    simp only [AlbumFetcher.convert_url_to_album_link]
    rw [normalizeRegion_strips region hr id hid]
  · intro u h1 h2 h3
    simp only [AlbumFetcher.convert_url_to_album_link, normalizeRegion]
    rw [pyReplace_of_hasSub_false _ _ _ h1, pyReplace_of_hasSub_false _ _ _ h2,
      pyReplace_of_hasSub_false _ _ _ h3]

/-- Witness for C6 at concrete links. -/
theorem claim6_witness :
    AlbumFetcher.convert_url_to_album_link
        (.ok (some ("https://album.link/" ++ "us" ++ "/i/" ++ "id123"))) =
      some ("https://album.link/i/" ++ "id123") ∧
    AlbumFetcher.convert_url_to_album_link (.ok (some "https://song.link/x7")) =
      some "https://song.link/x7" :=
  ⟨claim6_region_normalization.1 "us" (Or.inl rfl) "id123" (by decide),
   claim6_region_normalization.2 "https://song.link/x7" (by decide) (by decide) (by decide)⟩

/-- C7: resolution short-circuit.  When the catalog search returns no
candidate, the conversion step is invoked zero times and the resolver
returns `none`. -/
theorem claim7_short_circuit (search : String → String → Option String)
    (convert : String → Option String) (artist album : String)
    (h : search artist album = none) :
    AlbumFetcher.search_album_link_instr search convert artist album = (none, 0) := by
  simp [AlbumFetcher.search_album_link_instr, h]

/-- Witness for C7 with a search double that finds nothing. -/
theorem claim7_witness :
    AlbumFetcher.search_album_link_instr (fun _ _ => none) (fun u => some u)
      "Artist" "Album" = (none, 0) :=
  claim7_short_circuit (fun _ _ => none) (fun u => some u) "Artist" "Album" rfl

/-- Unfolding `entryRecord` when the title does not parse. -/
theorem entryRecord_none (search : String → String → Option String)
    (convert : String → Option String) (e : FeedEntry)
    (h : AlbumFetcher.clean_title e.title = none) :
    entryRecord search convert e = none := by
  rw [entryRecord, h]
  rfl

/-- Unfolding `entryRecord` when the title parses. -/
theorem entryRecord_some (search : String → String → Option String)
    (convert : String → Option String) (e : FeedEntry) (a b : String)
    (h : AlbumFetcher.clean_title e.title = some (a, b)) :
    entryRecord search convert e =
      some { artist := a, album := b,
             album_link := ((search a b).bind convert).getD "",
             apple_music_link := (search a b).getD "",
             date := (parsePubDate e.published).toOption.getD "" } := by
  rw [entryRecord, h]
  rfl

/-- Unfolding `process_feed` on the empty feed. -/
theorem process_feed_nil (search : String → String → Option String)
    (convert : String → Option String) :
    AlbumFetcher.process_feed search convert [] = .ok [] := rfl

/-- Unfolding `process_feed` on a cons: the loop body for one entry. -/
theorem process_feed_cons (search : String → String → Option String)
    (convert : String → Option String) (e : FeedEntry) (rest : List FeedEntry) :
    AlbumFetcher.process_feed search convert (e :: rest) =
      match parsePubDate e.published with
      | .error u => .error u
      | .ok date_str =>
        match AlbumFetcher.clean_title e.title with
        | none => AlbumFetcher.process_feed search convert rest
        | some (artist, album) =>
          match AlbumFetcher.process_feed search convert rest with
          | .error u => .error u
          | .ok rs =>
            let apple_url := search artist album
            let album_link := apple_url.bind convert
            .ok ({ artist := artist, album := album,
                   album_link := album_link.getD "",
                   apple_music_link := apple_url.getD "",
                   date := date_str } :: rs) := rfl

/-- The successful runs of `process_feed` are exactly the in-order
per-entry contributions. -/
theorem process_feed_ok_eq (search : String → String → Option String)
    (convert : String → Option String) (entries : List FeedEntry)
    (res : List ResultRecord)
    (h : AlbumFetcher.process_feed search convert entries = .ok res) :
    res = entries.filterMap (entryRecord search convert) := by
  induction entries generalizing res with
  | nil =>
    rw [process_feed_nil] at h
    simp only [Except.ok.injEq] at h
    simp [h.symm]
  | cons e rest ih =>
    rw [process_feed_cons] at h
    cases hd : parsePubDate e.published with
    | error u => rw [hd] at h; exact absurd h (by simp)
    | ok d =>
      rw [hd] at h
      cases hct : AlbumFetcher.clean_title e.title with
      | none =>
        rw [hct] at h
        rw [List.filterMap_cons, entryRecord_none search convert e hct]
        exact ih res h
      | some p =>
        obtain ⟨a, b⟩ := p
        rw [hct] at h
        cases hrec : AlbumFetcher.process_feed search convert rest with
        | error u => rw [hrec] at h; exact absurd h (by simp)
        | ok rs =>
          rw [hrec] at h
          simp only [Except.ok.injEq] at h
          subst h
          rw [List.filterMap_cons, entryRecord_some search convert e a b hct, hd,
            ih rs hrec]
          rfl

/-- The number of records contributed equals the number of entries whose
title parses. -/
theorem length_entryRecord_countP (search : String → String → Option String)
    (convert : String → Option String) (entries : List FeedEntry) :
    (entries.filterMap (entryRecord search convert)).length =
      entries.countP (fun e => (AlbumFetcher.clean_title e.title).isSome) := by
  induction entries with
  | nil => rfl
  | cons e rest ih =>
    rw [List.filterMap_cons, List.countP_cons]
    cases hct : AlbumFetcher.clean_title e.title with
    | none =>
      rw [entryRecord_none search convert e hct]
      simp only [hct, Option.isSome_none, Bool.false_eq_true, if_false, ih]
      omega
    | some p =>
      obtain ⟨a, b⟩ := p
      rw [entryRecord_some search convert e a b hct]
      simp only [hct, Option.isSome_some, if_true, List.length_cons, ih]

/-- C1: per-entry output of `process_feed`.  On a successful run, the
number of records equals the number of entries whose title parses (a
parse failure contributes nothing); every entry whose title parses
contributes its record even when resolution fails; and when the catalog
search finds nothing (so conversion also cannot run), the contributed
record carries empty strings in both link fields rather than being
omitted. -/
theorem claim1_placeholder_records (search : String → String → Option String)
    (convert : String → Option String) (entries : List FeedEntry)
    (res : List ResultRecord)
    (h : AlbumFetcher.process_feed search convert entries = .ok res) :
    res.length = entries.countP (fun e => (AlbumFetcher.clean_title e.title).isSome) ∧
    (∀ e ∈ entries, ∀ a b, AlbumFetcher.clean_title e.title = some (a, b) →
      ({ artist := a, album := b, album_link := ((search a b).bind convert).getD "",
         apple_music_link := (search a b).getD "",
         date := (parsePubDate e.published).toOption.getD "" } :
        ResultRecord) ∈ res) ∧
    (∀ e ∈ entries, ∀ a b, AlbumFetcher.clean_title e.title = some (a, b) →
      search a b = none →
      ({ artist := a, album := b, album_link := "", apple_music_link := "",
         date := (parsePubDate e.published).toOption.getD "" } :
        ResultRecord) ∈ res) := by
  obtain rfl := process_feed_ok_eq search convert entries res h
  refine ⟨length_entryRecord_countP search convert entries, ?_, ?_⟩
  · intro e he a b hab
    exact List.mem_filterMap.mpr ⟨e, he, entryRecord_some search convert e a b hab⟩
  · intro e he a b hab hs
    refine List.mem_filterMap.mpr ⟨e, he, ?_⟩
    rw [entryRecord_some search convert e a b hab, hs]
    rfl

/-- Witness for C1: a two-entry feed whose first title parses but finds
no link, and whose second title does not parse. -/
theorem claim1_witness :
    ({ artist := "Artist A", album := "Album One", album_link := "",
       apple_music_link := "", date := "" } : ResultRecord) ∈
      [({ artist := "Artist A", album := "Album One", album_link := "",
          apple_music_link := "", date := "" } : ResultRecord)] :=
  (claim1_placeholder_records (fun _ _ => none) (fun _ => none)
      [⟨"Artist A: Album One review", ""⟩, ⟨"no separator", ""⟩]
      [{ artist := "Artist A", album := "Album One", album_link := "",
         apple_music_link := "", date := "" }] (by decide)).2.2
    ⟨"Artist A: Album One review", ""⟩ (by decide) "Artist A" "Album One" (by decide) rfl

/-- C8: ordering invariant.  A successful `process_feed` run is exactly
the in-entry-order sequence of per-entry records (`List.filterMap`
preserves the order of `entries` and merely omits the parse failures),
so records of earlier entries precede records of later entries. -/
theorem claim8_ordering (search : String → String → Option String)
    (convert : String → Option String) (entries : List FeedEntry)
    (res : List ResultRecord)
    (h : AlbumFetcher.process_feed search convert entries = .ok res) :
    res = entries.filterMap (entryRecord search convert) :=
  process_feed_ok_eq search convert entries res h

/-- Witness for C8 on a three-entry feed (parse failure in the middle). -/
theorem claim8_witness :
    [({ artist := "A", album := "B", album_link := "", apple_music_link := "",
        date := "" } : ResultRecord),
     { artist := "C", album := "D", album_link := "", apple_music_link := "",
       date := "" }] =
      List.filterMap (entryRecord (fun _ _ => none) (fun _ => none))
        [⟨"A: B", ""⟩, ⟨"skipped title", ""⟩, ⟨"C: D", ""⟩] :=
  claim8_ordering (fun _ _ => none) (fun _ => none)
    [⟨"A: B", ""⟩, ⟨"skipped title", ""⟩, ⟨"C: D", ""⟩]
    [{ artist := "A", album := "B", album_link := "", apple_music_link := "", date := "" },
     { artist := "C", album := "D", album_link := "", apple_music_link := "", date := "" }]
    (by decide)

/-- C4 is a code bug: the date-normalization fallback crashes on a
nonempty raw date with no comma.  `pub_date.split(',')[1]` inside the
bare `except:` handler raises an uncaught `IndexError`, so the
normalization does raise an exception that terminates `process_feed` —
contrary to the claim (and the spec's non-fatal fallback).  The primary
RFC-822 path itself works and yields `YYYY-MM-DD`. -/
theorem claim4_date_fallback_crash :
    AlbumFetcher.process_feed (fun _ _ => none) (fun _ => none)
        [⟨"Artist A: Album One", "Invalid Date String"⟩] = .error () ∧
    parsePubDate "Invalid Date String" = .error () ∧
    parsePubDate "Mon, 06 Nov 2023 14:30:00 +0000" = .ok "2023-11-06" :=
  ⟨by decide, by decide, by decide⟩

/-- A substring of some rendered record line is a substring of the whole
rendered list. -/
theorem hasSub_renderLines (p : List Char) (results : List ResultRecord)
    (r : ResultRecord) (h : r ∈ results)
    (hr : hasSub p (OutputGenerator.recordLine r).data = true) :
    hasSub p (OutputGenerator.renderLines results).data = true := by
  induction results with
  | nil => cases h
  | cons x rest ih =>
    show hasSub p (OutputGenerator.recordLine x ++ OutputGenerator.renderLines rest).data = true
    rw [String.data_append]
    rcases List.mem_cons.mp h with rfl | hmem
    · exact hasSub_append_l _ _ _ hr
    · exact hasSub_append_r _ _ _ (ih hmem)

/-- The two link chunks always occur verbatim in a record's line. -/
theorem recordLine_contains_links (r : ResultRecord) :
    hasSub ("[[All](".data ++ (r.album_link.data ++ ")]".data))
      (OutputGenerator.recordLine r).data = true ∧
    hasSub ("[[Apple](".data ++ (r.apple_music_link.data ++ ")]".data))
      (OutputGenerator.recordLine r).data = true := by
  constructor
  · have hdecomp : (OutputGenerator.recordLine r).data =
        ("- **".data ++ (r.artist.data ++ (" — ".data ++ (r.album.data ++ "** ".data)))) ++
          (("[[All](".data ++ (r.album_link.data ++ ")]".data)) ++
            (" [[Apple](".data ++ (r.apple_music_link.data ++ (")]".data ++
              ((if r.date ≠ "" then " _" ++ r.date ++ "_" else "").data ++ "\n".data))))) := by
      simp only [OutputGenerator.recordLine, String.data_append, List.append_assoc,
        List.cons_append, List.nil_append]
    rw [hdecomp]
    exact hasSub_parts _ _ _
  · have hdecomp : (OutputGenerator.recordLine r).data =
        ("- **".data ++ (r.artist.data ++ (" — ".data ++ (r.album.data ++ ("** ".data ++
          ("[[All](".data ++ (r.album_link.data ++ (")]".data ++ " ".data)))))))) ++
          (("[[Apple](".data ++ (r.apple_music_link.data ++ ")]".data)) ++
            ((if r.date ≠ "" then " _" ++ r.date ++ "_" else "").data ++ "\n".data)) := by
      simp only [OutputGenerator.recordLine, String.data_append, List.append_assoc,
        List.cons_append, List.nil_append]
    rw [hdecomp]
    exact hasSub_parts _ _ _

/-- C5 fails on the code: for a record with empty link fields the
Markdown renderer emits links with empty targets (`[[All]()]`,
`[[Apple]()]`) instead of any no-link fallback rendering. -/
theorem claim5_counterexample :
    hasSub "[[All]()]".data
      (OutputGenerator.generate_markdown
        [{ artist := "Artist A", album := "Album One", album_link := "",
           apple_music_link := "", date := "" }]).data = true ∧
    hasSub "[[Apple]()]".data
      (OutputGenerator.generate_markdown
        [{ artist := "Artist A", album := "Album One", album_link := "",
           apple_music_link := "", date := "" }]).data = true := by
  constructor <;> decide

/-- C5 (amended): the Markdown renderer has no no-link fallback — for
every rendered record it emits both link labels unconditionally with the
raw field value as the link target, so an empty field yields a link with
an empty target while the record itself is still rendered. -/
theorem claim5_links_always_emitted (results : List ResultRecord) (r : ResultRecord)
    (h : r ∈ results) :
    hasSub ("[[All](".data ++ (r.album_link.data ++ ")]".data))
      (OutputGenerator.generate_markdown results).data = true ∧
    hasSub ("[[Apple](".data ++ (r.apple_music_link.data ++ ")]".data))
      (OutputGenerator.generate_markdown results).data = true := by
  have hne : results.isEmpty = false := by
    cases results with
    | nil => cases h
    | cons x rest => rfl
  have hgen : (OutputGenerator.generate_markdown results).data =
      ("## 🎶 New Jazz Albums\n\n" ++ "_Links: [All Platforms] | [Apple Music]_\n\n").data ++
        (OutputGenerator.renderLines results).data := by
    simp only [OutputGenerator.generate_markdown, hne, Bool.false_eq_true, if_false,
      String.data_append]
  constructor
  · rw [hgen]
    exact hasSub_append_r _ _ _
      (hasSub_renderLines _ results r h (recordLine_contains_links r).1)
  · rw [hgen]
    exact hasSub_append_r _ _ _
      (hasSub_renderLines _ results r h (recordLine_contains_links r).2)

/-- Witness for C5 (amended) on a one-record list with empty links. -/
theorem claim5_witness :
    hasSub ("[[All](".data ++ ("".data ++ ")]".data))
      (OutputGenerator.generate_markdown
        [{ artist := "Artist A", album := "Album One", album_link := "",
           apple_music_link := "", date := "" }]).data = true ∧
    hasSub ("[[Apple](".data ++ ("".data ++ ")]".data))
      (OutputGenerator.generate_markdown
        [{ artist := "Artist A", album := "Album One", album_link := "",
           apple_music_link := "", date := "" }]).data = true :=
  claim5_links_always_emitted
    [{ artist := "Artist A", album := "Album One", album_link := "",
       apple_music_link := "", date := "" }]
    { artist := "Artist A", album := "Album One", album_link := "",
      apple_music_link := "", date := "" }
    (List.mem_singleton.mpr rfl)

/-! ## CSV round-trip -/

theorem takeWhile_append_all {P : Char → Bool} (f rest : List Char)
    (hf : ∀ c ∈ f, P c = true) :
    (f ++ rest).takeWhile P = f ++ rest.takeWhile P := by
  induction f with
  | nil => simp
  | cons c f' ih =>
    rw [List.cons_append, List.takeWhile_cons, if_pos (hf c (List.mem_cons_self c f')),
      ih (fun d hd => hf d (List.mem_cons_of_mem c hd)), List.cons_append]

theorem dropWhile_append_all {P : Char → Bool} (f rest : List Char)
    (hf : ∀ c ∈ f, P c = true) :
    (f ++ rest).dropWhile P = rest.dropWhile P := by
  induction f with
  | nil => simp
  | cons c f' ih =>
    rw [List.cons_append, List.dropWhile_cons, if_pos (hf c (List.mem_cons_self c f')),
      ih (fun d hd => hf d (List.mem_cons_of_mem c hd))]

theorem takeWhile_stop (rest : List Char)
    (h : rest = [] ∨ rest.headD ' ' = ',' ∨ rest.headD ' ' = '\r') :
    rest.takeWhile csvPlain = [] ∧ rest.dropWhile csvPlain = rest := by
  rcases rest with _ | ⟨c, r⟩
  · exact ⟨rfl, rfl⟩
  · have hc : csvPlain c = false := by
      rcases h with h | h | h
      · cases h
      · simp only [List.headD_cons] at h
        rw [h]; rfl
      · simp only [List.headD_cons] at h
        rw [h]; rfl
    rw [List.takeWhile_cons, List.dropWhile_cons, if_neg (by simp [hc]), if_neg (by simp [hc])]
    exact ⟨rfl, rfl⟩

theorem csvQuoted_close (rest : List Char) (h : rest.headD ' ' ≠ '"') :
    csvQuoted ('"' :: rest) = some ([], rest) := by
  rw [csvQuoted.eq_def]
  cases rest with
  | nil => simp
  | cons c2 r2 =>
    have hc2 : c2 ≠ '"' := by simpa using h
    simp [hc2]

theorem csvQuoted_quote_pair (rest2 : List Char) :
    csvQuoted ('"' :: '"' :: rest2) = (csvQuoted rest2).map fun p => ('"' :: p.1, p.2) := by
  rw [csvQuoted.eq_def]
  simp

theorem csvQuoted_plain (c : Char) (hc : c ≠ '"') (l : List Char) :
    csvQuoted (c :: l) = (csvQuoted l).map fun p => (c :: p.1, p.2) := by
  rw [csvQuoted.eq_def]
  simp [hc]

theorem csvQuoted_rt (f rest : List Char) (hrest : rest.headD ' ' ≠ '"') :
    csvQuoted (csvEscape f ++ ('"' :: rest)) = some (f, rest) := by
  induction f with
  | nil => exact csvQuoted_close rest hrest
  | cons c f' ih =>
    by_cases hc : c = '"'
    · subst hc
      have he : csvEscape ('"' :: f') = '"' :: '"' :: csvEscape f' := by
        simp [csvEscape]
      rw [he, List.cons_append, List.cons_append, csvQuoted_quote_pair, ih]
      rfl
    · have he : csvEscape (c :: f') = c :: csvEscape f' := by
        simp [csvEscape, hc]
      rw [he, List.cons_append, csvQuoted_plain c hc, ih]
      rfl

theorem csvParseField_rt (f rest : List Char)
    (hrest : rest = [] ∨ rest.headD ' ' = ',' ∨ rest.headD ' ' = '\r') :
    csvParseField (csvField f ++ rest) = some (f, rest) := by
  have hrq : rest.headD ' ' ≠ '"' := by
    rcases hrest with rfl | h | h
    · simp
    · rw [h]; decide
    · rw [h]; decide
  by_cases hq : csvNeedsQuote f
  · have harr : csvField f ++ rest = '"' :: (csvEscape f ++ ('"' :: rest)) := by
      simp [csvField, hq, List.append_assoc]
    rw [harr]
    have hne : csvEscape f ++ ('"' :: rest) ≠ [] := by simp
    cases hcs : csvEscape f ++ ('"' :: rest) with
    | nil => exact absurd hcs hne
    | cons d ds =>
      show csvParseField ('"' :: d :: ds) = some (f, rest)
      simp only [csvParseField, if_pos rfl]
      rw [← hcs]
      exact csvQuoted_rt f rest hrq
  · have hnone : ∀ c ∈ f, ¬ (c = ',' ∨ c = '"' ∨ c = '\r' ∨ c = '\n') := by
      intro c hc hcontra
      exact hq (List.any_eq_true.mpr ⟨c, hc, by
        rcases hcontra with h | h | h | h <;> simp [h]⟩)
    have hfield : csvField f = f := by
      simp only [csvField, if_neg hq]
    have hplain : ∀ c ∈ f, csvPlain c = true := by
      intro c hc
      have := hnone c hc
      simp only [csvPlain]
      simp only [decide_eq_true_eq]
      tauto
    rw [hfield]
    cases f with
    | nil =>
      rw [List.nil_append]
      rcases rest with _ | ⟨c, r⟩
      · rfl
      · have hc : c ≠ '"' := by simpa using hrq
        simp only [csvParseField, if_neg hc]
        have := takeWhile_stop (c :: r) (by simpa using hrest)
        rw [this.1, this.2]
    | cons c f' =>
      have hc : c ≠ '"' := by
        intro hcq
        exact hnone c (List.mem_cons_self c f') (Or.inr (Or.inl hcq))
      rw [List.cons_append]
      simp only [csvParseField, if_neg hc]
      rw [← List.cons_append]
      rw [takeWhile_append_all (c :: f') rest hplain,
        dropWhile_append_all (c :: f') rest hplain,
        (takeWhile_stop rest hrest).1, (takeWhile_stop rest hrest).2,
        List.append_nil]

theorem csvParseRowGo_succ (fuel : Nat) (s : List Char) :
    csvParseRowGo (fuel + 1) s =
      match csvParseField s with
      | none => none
      | some (f, r) =>
        match r with
        | [] => some ([f], [])
        | c :: r2 =>
          if c = ',' then (csvParseRowGo fuel r2).map fun p => (f :: p.1, p.2)
          else if c = '\r' then
            match r2 with
            | c2 :: r3 => if c2 = '\n' then some ([f], r3) else none
            | [] => none
          else none := by
  rw [csvParseRowGo.eq_def]

theorem csvParseRowGo_join (fs : List (List Char)) (hfs : fs ≠ []) (rest : List Char) :
    ∀ fuel, fs.length ≤ fuel →
      csvParseRowGo fuel (csvJoin (fs.map csvField) ++ ('\r' :: '\n' :: rest)) =
        some (fs, rest) := by
  induction fs with
  | nil => exact absurd rfl hfs
  | cons f fs' ih =>
    intro fuel hfuel
    cases fuel with
    | zero => simp at hfuel
    | succ k =>
      cases fs' with
      | nil =>
        have hjoin : csvJoin ([f].map csvField) = csvField f := rfl
        rw [hjoin, csvParseRowGo_succ,
          csvParseField_rt f ('\r' :: '\n' :: rest) (Or.inr (Or.inr rfl))]
        simp
      | cons f2 fs'' =>
        have hjoin : csvJoin ((f :: f2 :: fs'').map csvField) ++ ('\r' :: '\n' :: rest) =
            csvField f ++
              (',' :: (csvJoin ((f2 :: fs'').map csvField) ++ ('\r' :: '\n' :: rest))) := by
          show (csvField f ++ ',' :: csvJoin ((f2 :: fs'').map csvField)) ++
              ('\r' :: '\n' :: rest) = _
          simp [List.append_assoc]
        rw [hjoin, csvParseRowGo_succ,
          csvParseField_rt f
            (',' :: (csvJoin ((f2 :: fs'').map csvField) ++ ('\r' :: '\n' :: rest)))
            (Or.inr (Or.inl rfl))]
        have hrec := ih (by simp) k (by simpa using Nat.le_of_succ_le_succ hfuel)
        simp only [hrec]
        simp

theorem csvRow_rt (fs : List (List Char)) (hfs : fs ≠ []) (rest : List Char)
    (fuel : Nat) (hfuel : fs.length ≤ fuel) :
    csvParseRowGo fuel (csvRow fs ++ rest) = some (fs, rest) := by
  by_cases hspec : fs = [[]]
  · subst hspec
    cases fuel with
    | zero => simp at hfuel
    | succ k =>
      have hrow : csvRow [[]] ++ rest = '"' :: '"' :: '\r' :: '\n' :: rest := rfl
      rw [hrow, csvParseRowGo_succ]
      have hpf : csvParseField ('"' :: '"' :: '\r' :: '\n' :: rest) =
          some ([], '\r' :: '\n' :: rest) := by
        show (if ('"' : Char) = '"' then csvQuoted ('"' :: '\r' :: '\n' :: rest)
          else some (('"' :: '"' :: '\r' :: '\n' :: rest).takeWhile csvPlain,
            ('"' :: '"' :: '\r' :: '\n' :: rest).dropWhile csvPlain)) = _
        rw [if_pos rfl, csvQuoted_close ('\r' :: '\n' :: rest)
          (by rw [List.headD_cons]; decide)]
      rw [hpf]
      simp
  · have hrow : csvRow fs = csvJoin (fs.map csvField) ++ ['\r', '\n'] := by
      rw [csvRow, if_neg hspec]
    rw [hrow, List.append_assoc]
    exact csvParseRowGo_join fs hfs rest fuel hfuel

theorem csvJoin_length_ge (fs : List (List Char)) :
    fs.length ≤ (csvJoin (fs.map csvField)).length + 1 := by
  induction fs with
  | nil => simp
  | cons f fs' ih =>
    cases fs' with
    | nil => simp
    | cons f2 fs'' =>
      have hjoin : csvJoin ((f :: f2 :: fs'').map csvField) =
          csvField f ++ ',' :: csvJoin ((f2 :: fs'').map csvField) := rfl
      rw [hjoin]
      simp only [List.length_cons, List.length_append] at *
      omega

theorem csvRow_length_ge (fs : List (List Char)) : fs.length ≤ (csvRow fs).length := by
  by_cases hspec : fs = [[]]
  · subst hspec; simp [csvRow]
  · rw [csvRow, if_neg hspec]
    have := csvJoin_length_ge fs
    simp only [List.length_append, List.length_cons]
    simp only [List.length_nil]
    omega

theorem csvRow_ne_nil (fs : List (List Char)) : csvRow fs ≠ [] := by
  by_cases hspec : fs = [[]]
  · subst hspec; simp [csvRow]
  · rw [csvRow, if_neg hspec]
    simp

theorem csvRows_length_ge (rows : List (List (List Char))) :
    rows.length ≤ (csvRows rows).length := by
  induction rows with
  | nil => simp [csvRows]
  | cons r rows' ih =>
    have hr : 1 ≤ (csvRow r).length := by
      cases hrow : csvRow r with
      | nil => exact absurd hrow (csvRow_ne_nil r)
      | cons c cs => simp
    show (r :: rows').length ≤ (csvRow r ++ csvRows rows').length
    simp only [List.length_cons, List.length_append]
    omega

theorem csvRows_rt (rows : List (List (List Char)))
    (hrows : ∀ r ∈ rows, r ≠ []) :
    ∀ fuel, rows.length < fuel → csvParseRowsGo fuel (csvRows rows) = some rows := by
  induction rows with
  | nil =>
    intro fuel hf
    cases fuel with
    | zero => omega
    | succ k => rfl
  | cons r rows' ih =>
    intro fuel hf
    cases fuel with
    | zero => omega
    | succ k =>
      obtain ⟨c, s, hcs⟩ : ∃ c s, csvRow r ++ csvRows rows' = c :: s := by
        cases hrow : csvRow r with
        | nil => exact absurd hrow (csvRow_ne_nil r)
        | cons c cs => exact ⟨c, cs ++ csvRows rows', by simp [hrow]⟩
      show csvParseRowsGo (k + 1) (csvRow r ++ csvRows rows') = some (r :: rows')
      rw [hcs]
      show (match csvParseRowGo ((c :: s).length + 1) (c :: s) with
        | none => none
        | some (fs, rr) => (csvParseRowsGo k rr).map fun rows => fs :: rows) = _
      rw [← hcs]
      have hfuelrow : r.length ≤ (csvRow r ++ csvRows rows').length + 1 := by
        have h1 := csvRow_length_ge r
        simp only [List.length_append]
        omega
      rw [csvRow_rt r (hrows r (List.mem_cons_self r rows')) (csvRows rows') _ hfuelrow]
      show (csvParseRowsGo k (csvRows rows')).map (fun rows => r :: rows) =
        some (r :: rows')
      rw [ih (fun x hx => hrows x (List.mem_cons_of_mem r hx)) k (by
        simp only [List.length_cons] at hf
        omega)]
      rfl

/-- The CSV document written by `generate_csv` parses back to exactly
the header row followed by the records' field rows. -/
theorem csvParse_generate_csv (results : List ResultRecord) :
    csvParse (OutputGenerator.generate_csv results).data =
      some (csvHeader :: results.map recFields) := by
  have hdata : (OutputGenerator.generate_csv results).data =
      csvRows (csvHeader :: results.map recFields) := rfl
  rw [hdata, csvParse]
  apply csvRows_rt
  · intro r hr
    rcases List.mem_cons.mp hr with rfl | hmem
    · simp [csvHeader]
    · obtain ⟨rec, _, rfl⟩ := List.mem_map.mp hmem
      simp [recFields]
  · exact Nat.lt_succ_of_le (csvRows_length_ge _)

/-- C9: CSV round-trip.  Writing any record list with `generate_csv` and
re-reading the produced text with a standard CSV reader yields the
header row (`artist, album, album_link, apple_music_link, date`)
followed by exactly the original five string values of every record, in
order; dropping the header row recovers the records exactly. -/
theorem claim9_csv_roundtrip (results : List ResultRecord) :
    (csvParse (OutputGenerator.generate_csv results).data).map
        (fun rows => rows.drop 1) = some (results.map recFields) ∧
    (csvParse (OutputGenerator.generate_csv results).data).map
        (fun rows => rows.take 1) = some [csvHeader] := by
  rw [csvParse_generate_csv]
  exact ⟨rfl, rfl⟩

/-! ## Title-parsing claims -/

theorem orElse_some_left {α : Type} (a : α) (f : Unit → Option α) :
    (some a).orElse f = some a := rfl

theorem orElse_none_left {α : Type} (f : Unit → Option α) :
    (none : Option α).orElse f = f () := rfl

/-- C2: Strategy A characterization.  `AlbumFetcher.clean_title` returns
a pair exactly when, after stripping the ordered trailing noise patterns
and trimming, the string contains a colon and both sides of the *first*
colon are non-empty after trimming; the returned pair is the trimmed
first-colon split (so `"Artist: Album: Subtitle"` maps to
`("Artist", "Album: Subtitle")`), and a title with no colon in its
cleaned form yields `none` (the function is total — no exception). -/
theorem claim2_strategyA_characterization :
    (∀ t : String,
      (AlbumFetcher.clean_title t).isSome ↔
        (':' ∈ AlbumFetcher.cleanedTitleA t ∧
          pyTrim ((AlbumFetcher.cleanedTitleA t).takeWhile (fun c => c ≠ ':')) ≠ [] ∧
          pyTrim (((AlbumFetcher.cleanedTitleA t).dropWhile (fun c => c ≠ ':')).tail) ≠ [])) ∧
    (∀ t : String, ∀ a b : String, AlbumFetcher.clean_title t = some (a, b) →
      a = ⟨pyTrim ((AlbumFetcher.cleanedTitleA t).takeWhile (fun c => c ≠ ':'))⟩ ∧
      b = ⟨pyTrim (((AlbumFetcher.cleanedTitleA t).dropWhile (fun c => c ≠ ':')).tail)⟩) ∧
    AlbumFetcher.clean_title "Artist: Album: Subtitle" =
      some ("Artist", "Album: Subtitle") ∧
    (∀ t : String, ':' ∉ AlbumFetcher.cleanedTitleA t →
      AlbumFetcher.clean_title t = none) := by
  refine ⟨?_, ?_, by decide, ?_⟩
  · intro t
    simp only [AlbumFetcher.clean_title, tryColonSplit]
    by_cases hc : ':' ∈ AlbumFetcher.cleanedTitleA t
    · rw [if_pos hc]
      by_cases hne : pyTrim ((AlbumFetcher.cleanedTitleA t).takeWhile (fun c => c ≠ ':')) ≠ [] ∧
          pyTrim (((AlbumFetcher.cleanedTitleA t).dropWhile (fun c => c ≠ ':')).tail) ≠ []
      · rw [if_pos hne]
        simp only [Option.isSome_some, true_iff]
        exact ⟨hc, hne.1, hne.2⟩
      · rw [if_neg hne]
        simp only [Option.isSome_none, Bool.false_eq_true, false_iff]
        intro hcontra
        exact hne ⟨hcontra.2.1, hcontra.2.2⟩
    · rw [if_neg hc]
      simp only [Option.isSome_none, Bool.false_eq_true, false_iff]
      intro hcontra
      exact hc hcontra.1
  · intro t a b h
    simp only [AlbumFetcher.clean_title, tryColonSplit] at h
    split_ifs at h
    simp only [Option.some.injEq, Prod.mk.injEq] at h
    exact ⟨h.1.symm, h.2.symm⟩
  · intro t hc
    simp only [AlbumFetcher.clean_title, tryColonSplit, if_neg hc]

/-- Witness for C2: a colon-free title is rejected, a colon title parses. -/
theorem claim2_witness :
    AlbumFetcher.clean_title "An Essay About Jazz" = none :=
  claim2_strategyA_characterization.2.2.2 "An Essay About Jazz" (by decide)

/-- C3: Strategy B priority.  `JazzProfilesFetcher.clean_title` tries
the colon split, then the `" - "` split, then the whole-word `by`
pattern, returning the first success: a successful colon split wins over
everything (`"A: B - C"` maps to `("A", "B - C")`), a title matching
only the `by` pattern maps album-first (`"Midnight Blue by Kenny
Burrell"` maps to `("Kenny Burrell", "Midnight Blue")`), and when no
separator matches the result is `none`. -/
theorem claim3_strategyB_priority :
    (∀ t : String, ∀ p : String × String,
      tryColonSplit (JazzProfilesFetcher.cleanedTitleB t) = some p →
        JazzProfilesFetcher.clean_title t = some p) ∧
    JazzProfilesFetcher.clean_title "A: B - C" = some ("A", "B - C") ∧
    JazzProfilesFetcher.clean_title "Midnight Blue by Kenny Burrell" =
      some ("Kenny Burrell", "Midnight Blue") ∧
    (∀ t : String, tryColonSplit (JazzProfilesFetcher.cleanedTitleB t) = none →
      tryHyphenSplit (JazzProfilesFetcher.cleanedTitleB t) = none →
      tryBySplit (JazzProfilesFetcher.cleanedTitleB t) = none →
      JazzProfilesFetcher.clean_title t = none) := by
  refine ⟨?_, by decide, by decide, ?_⟩
  · intro t p h
    simp only [JazzProfilesFetcher.clean_title, h, orElse_some_left]
  · intro t h1 h2 h3
    simp only [JazzProfilesFetcher.clean_title, h1, orElse_none_left, h2, h3]

/-- Witness for C3: the colon split wins on a concrete title. -/
theorem claim3_witness :
    JazzProfilesFetcher.clean_title "Kind Of Blue: Miles Davis" =
      some ("Kind Of Blue", "Miles Davis") :=
  claim3_strategyB_priority.1 "Kind Of Blue: Miles Davis"
    ("Kind Of Blue", "Miles Davis") (by decide)

/-- C10 (implicit): a colon whose split leaves an empty half is not a
terminal failure in Strategy B — the parser falls through to the `" - "`
split and then the `by` pattern on the same cleaned title, so a title
that contains a colon can still produce a pair from a lower-priority
separator (`": B - C"` contains a colon yet parses via `" - "` to
`(": B", "C")`). -/
theorem claim10_colon_fallthrough :
    (∀ t : String, ∀ p : String × String,
      tryColonSplit (JazzProfilesFetcher.cleanedTitleB t) = none →
      tryHyphenSplit (JazzProfilesFetcher.cleanedTitleB t) = some p →
        JazzProfilesFetcher.clean_title t = some p) ∧
    (∀ t : String, ∀ p : String × String,
      tryColonSplit (JazzProfilesFetcher.cleanedTitleB t) = none →
      tryHyphenSplit (JazzProfilesFetcher.cleanedTitleB t) = none →
      tryBySplit (JazzProfilesFetcher.cleanedTitleB t) = some p →
        JazzProfilesFetcher.clean_title t = some p) ∧
    (':' ∈ JazzProfilesFetcher.cleanedTitleB ": B - C" ∧
      JazzProfilesFetcher.clean_title ": B - C" = some (": B", "C")) := by
  refine ⟨?_, ?_, by decide, by decide⟩
  · intro t p h1 h2
    simp only [JazzProfilesFetcher.clean_title, h1, orElse_none_left, h2, orElse_some_left]
  · intro t p h1 h2 h3
    simp only [JazzProfilesFetcher.clean_title, h1, orElse_none_left, h2, h3]

/-- Witness for C10: the fall-through on the concrete title `": B - C"`. -/
theorem claim10_witness :
    JazzProfilesFetcher.clean_title ": B - C" = some (": B", "C") :=
  claim10_colon_fallthrough.1 ": B - C" (": B", "C") (by decide) (by decide)
